import Mathlib

/-!
Shallow embedding of the compute-io/naive-bayes repository.

The two source files are `lib/multinomial.js` (with `lib/score.js` and the
`lib/index.js` entry points) and the Gaussian model file.  Numeric values are
modelled by a linearly ordered field (rationals for executable claims, the
reals where the content of a claim is about the actual logarithm and
exponential), and the JavaScript `Math.log` is passed in explicitly as a
function parameter `lnf` so that every theorem quantifies over the
interpretation of the logarithm.  A dedicated `JsNum` type (rationals extended
with infinities and NaN) is used for the one claim whose content is about
IEEE-style absorption of NaN.
-/

namespace NaiveBayes

/-- The only error the validation layer of the library raises is a JavaScript
TypeError; the message strings are irrelevant to every claim, so the error
type is a single constructor. -/
inductive JsErr where
  | typeError
deriving DecidableEq

/-- A dstructs-matrix as the core uses it: a shape and an element accessor,
mirroring x.shape[0], x.shape[1] and x.get(i, j). -/
structure JsMatrix (γ : Type) where
  nrow : ℕ
  ncol : ℕ
  get : ℕ → ℕ → γ

/-- The compute-to-matrix collaborator: turns an array of arrays into a
matrix.  Entries are assumed rectangular, as in every use in the library. -/
def toMatrix {γ : Type} [Zero γ] (rows : List (List γ)) : JsMatrix γ :=
  ⟨rows.length, (rows.headD []).length, fun i j => (rows.getD i []).getD j 0⟩

/-- Row extraction, mirroring both x.get(i, k) indexing in the multinomial
predict loops and x.mget([i], null).data in the Gaussian ones. -/
def rowOf {γ : Type} (x : JsMatrix γ) (i : ℕ) : ℕ → γ :=
  fun k => x.get i k

/-- JavaScript array element assignment a[i] = v on an array whose missing
slots hold undefined (modelled as none): assigning inside the current length
overwrites, assigning beyond it pads with undefined slots and extends. -/
def jsArraySet {γ : Type} (a : List (Option γ)) (i : ℕ) (v : γ) : List (Option γ) :=
  if i < a.length then a.set i (some v)
  else a ++ List.replicate (i - a.length) none ++ [some v]

/-- JavaScript division as score uses it, with the result NaN (modelled as
none) when the divisor is 0.  In score the dividend is 0 whenever the divisor
is 0, so NaN is the only non-finite outcome that can occur there. -/
def jsDiv (a : ℚ) (b : ℚ) : Option ℚ :=
  if b = 0 then none else some (a / b)

/-- JavaScript truncation toward zero of a (finite) number. -/
def jsTrunc (q : ℚ) : ℤ :=
  if 0 ≤ q then ⌊q⌋ else -⌊-q⌋

/-- The conversion applied on assignment into an Int32Array (ECMAScript
ToInt32): truncate toward zero, reduce mod 2^32, and reinterpret as signed. -/
def toInt32 (q : ℚ) : ℤ :=
  let r := jsTrunc q % 4294967296
  if r < 2147483648 then r else r - 4294967296

/-- The compute-unique collaborator: the distinct labels of the training
vector.  First-occurrence order is used; no claim depends on the order, only
on membership and distinctness. -/
def uniqueFirst {β : Type} [DecidableEq β] (l : List β) : List β :=
  l.foldl (fun acc a => if a ∈ acc then acc else acc ++ [a]) []

/-- The row-gathering loop of both fit methods: the indices j < n with
y[j] === c (an out-of-range read yields undefined, which never equals a
label). -/
def classIds {β : Type} [DecidableEq β] (y : List β) (n : ℕ) (c : β) : List ℕ :=
  (List.range n).filter (fun j => y[j]? = some c)

section FieldDefs

variable {α : Type} [LinearOrderedField α] {β : Type} [DecidableEq β] [Inhabited β]

/-- The compute-max collaborator as both predictProbs methods call it: running
maximum started from arr[0] (undefined, modelled as the junk value 0, on an
empty array; every use is on a nonempty array). -/
def jsMax (ll : List α) : α :=
  ll.foldl (fun mx v => if mx < v then v else mx) (ll.getD 0 0)

/-- The argmax scan shared by predictOne and the matrix branch of predict in
both families: running maximum with a strict > comparison, scanning pairs of
(log-likelihood, class label) in class order. -/
def argmaxLoop : List (α × β) → α → β → β
  | [], _, a => a
  | q :: rest, mx, a => if mx < q.1 then argmaxLoop rest q.1 q.2 else argmaxLoop rest mx a

/-- The full scan as written in the source: max = logLik[0], argmax =
classes[0], then the loop from index 0 (whose first iteration is a no-op
because the comparison is strict). -/
def argmaxFrom (cls : List β) (ll : List α) : β :=
  argmaxLoop (ll.zip cls) (ll.getD 0 0) (cls.getD 0 default)

/-- The log-sum-exp normalization shared by every predictProbs branch:
a = max(logLik); denom = a + ln(sum(exp(subtract(logLik, a))));
return exp(subtract(logLik, denom)). -/
def lseNormalize (lnf expf : α → α) (ll : List α) : List α :=
  let a := jsMax ll
  let denom := a + lnf ((ll.map (fun v => expf (v - a))).sum)
  ll.map (fun v => expf (v - denom))

/-- The state of a fitted multinomial model: the fields the MultinomialFit
constructor and fitMultinomial assign.  prior is the JS object keyed by class
label, cprob the p-by-nclass matrix of log conditional probabilities. -/
structure MultinomialFit (α : Type) (β : Type) where
  n : ℕ
  p : ℕ
  nclass : ℕ
  classes : List β
  alpha : α
  prior : β → α
  cprob : ℕ → ℕ → α

/-- The log-likelihood loop of MultinomialFit.predictOne (and, textually
repeated, of the matrix branch of predict): prior[classes[i]] plus, for each
feature, x[j] ? x[j] * cprob.get(j, i) : 0. -/
def mLogLikOne (m : MultinomialFit α β) (x : ℕ → α) : List α :=
  (List.range m.classes.length).map (fun i =>
    (List.range m.p).foldl
      (fun acc k => acc + (if x k ≠ 0 then x k * m.cprob k i else 0))
      (m.prior (m.classes.getD i default)))

/-- MultinomialFit.predictOne. -/
def mPredictOne (m : MultinomialFit α β) (x : ℕ → α) : β :=
  argmaxFrom m.classes (mLogLikOne m x)

/-- The three input shapes the dual-arity entry points distinguish via the
validate.io collaborators: an array of arrays (converted by toMatrix), a
matrix-like value, and anything else, which falls through to the
single-observation branch (in every intended use, a plain observation
vector). -/
inductive MObs (α : Type) : Type where
  | aa (rows : List (List α))
  | mat (x : JsMatrix α)
  | vec (v : ℕ → α)

/-- The two shapes predict can return: an array of labels (matrix input) or a
single label (vector input). -/
inductive PredOut (β : Type) : Type where
  | many (labels : List β)
  | one (label : β)

/-- The matrix branch of MultinomialFit.predict, with the log-likelihood and
argmax loops inlined as the source repeats them. -/
def mPredictMat (m : MultinomialFit α β) (x : JsMatrix α) : List β :=
  (List.range x.nrow).map (fun i =>
    argmaxFrom m.classes
      ((List.range m.classes.length).map (fun j =>
        (List.range m.p).foldl
          (fun acc k => acc + (if x.get i k ≠ 0 then x.get i k * m.cprob k j else 0))
          (m.prior (m.classes.getD j default)))))

/-- MultinomialFit.predict: array-of-arrays input is first converted to a
matrix; matrix-like input takes the multi-row branch; anything else is handed
to predictOne. -/
def mPredict (m : MultinomialFit α β) : MObs α → PredOut β
  | .aa rows => .many (mPredictMat m (toMatrix rows))
  | .mat x => .many (mPredictMat m x)
  | .vec v => .one (mPredictOne m v)

/-- The log-likelihood loop of the single-observation branch of
MultinomialFit.predictProbs.  Note: unlike predictOne and the matrix branch,
the source computes x[k] * cprob.get(k, j) without the zero short-circuit. -/
def mProbsLogLikSingle (m : MultinomialFit α β) (x : ℕ → α) : List α :=
  (List.range m.nclass).map (fun j =>
    (List.range m.p).foldl
      (fun acc k => acc + x k * m.cprob k j)
      (m.prior (m.classes.getD j default)))

/-- The log-likelihood loop for row i of the matrix branch of
MultinomialFit.predictProbs, which does have the zero short-circuit. -/
def mProbsLogLikMatRow (m : MultinomialFit α β) (x : JsMatrix α) (i : ℕ) : List α :=
  (List.range m.nclass).map (fun j =>
    (List.range m.p).foldl
      (fun acc k => acc + (if x.get i k ≠ 0 then x.get i k * m.cprob k j else 0))
      (m.prior (m.classes.getD j default)))

/-- The matrix branch of MultinomialFit.predictProbs.  The result array is
allocated by new Array(nrow) at a point where the local nrow is still
undefined, so the initial array is the one-slot array [undefined]; the loop
then assigns ret[i] for i below the row count. -/
def mPredictProbsMat (lnf expf : α → α) (m : MultinomialFit α β) (x : JsMatrix α) :
    List (Option (List α)) :=
  (List.range x.nrow).foldl
    (fun ret i => jsArraySet ret i (lseNormalize lnf expf (mProbsLogLikMatRow m x i)))
    [none]

/-- The two shapes predictProbs can return: an array of per-row probability
vectors (with possibly-undefined slots, see mPredictProbsMat) or a single
probability vector. -/
inductive ProbsOut (α : Type) : Type where
  | many (rows : List (Option (List α)))
  | one (probs : List α)

/-- MultinomialFit.predictProbs. -/
def mPredictProbs (lnf expf : α → α) (m : MultinomialFit α β) : MObs α → ProbsOut α
  | .aa rows => .many (mPredictProbsMat lnf expf m (toMatrix rows))
  | .mat x => .many (mPredictProbsMat lnf expf m x)
  | .vec v => .one (lseNormalize lnf expf (mProbsLogLikSingle m v))

/-- The state of a fitted Gaussian model: the fields the GaussianFit
constructor and fitGaussian assign. -/
structure GaussianFit (α : Type) (β : Type) where
  n : ℕ
  p : ℕ
  nclass : ℕ
  classes : List β
  prior : β → α
  mu : ℕ → ℕ → α
  sigma : ℕ → ℕ → α

/-- GaussianFit.calcGaussianProb: prior[classes[i]] plus, for each feature j,
-0.5 * ln(2*PI) * sigma.get(j,i) - 0.5 * (x[j] - mu.get(j,i)) / sigma.get(j,i).
The value of ln(2*PI) is passed in as ln2pi. -/
def calcGaussianProb (ln2pi : α) (g : GaussianFit α β) (x : ℕ → α) (i : ℕ) : α :=
  (List.range g.p).foldl
    (fun acc j =>
      acc + (-(1/2) * ln2pi * g.sigma j i - (1/2) * (x j - g.mu j i) / g.sigma j i))
    (g.prior (g.classes.getD i default))

/-- GaussianFit.predictOne. -/
def gPredictOne (ln2pi : α) (g : GaussianFit α β) (x : ℕ → α) : β :=
  argmaxFrom g.classes
    ((List.range g.classes.length).map (fun i => calcGaussianProb ln2pi g x i))

/-- The matrix branch of GaussianFit.predict: logLik[j] =
calcGaussianProb(x.mget([i], null).data, j), then the inlined argmax scan. -/
def gPredictMat (ln2pi : α) (g : GaussianFit α β) (x : JsMatrix α) : List β :=
  (List.range x.nrow).map (fun i =>
    argmaxFrom g.classes
      ((List.range g.classes.length).map (fun j =>
        calcGaussianProb ln2pi g (fun k => x.get i k) j)))

/-- GaussianFit.predict. -/
def gPredict (ln2pi : α) (g : GaussianFit α β) : MObs α → PredOut β
  | .aa rows => .many (gPredictMat ln2pi g (toMatrix rows))
  | .mat x => .many (gPredictMat ln2pi g x)
  | .vec v => .one (gPredictOne ln2pi g v)

/-- The log-likelihood vector of the single-observation branch of
GaussianFit.predictProbs. -/
def gProbsLogLikSingle (ln2pi : α) (g : GaussianFit α β) (x : ℕ → α) : List α :=
  (List.range g.nclass).map (fun j => calcGaussianProb ln2pi g x j)

/-- The matrix branch of GaussianFit.predictProbs, with the same
new Array(nrow)-before-nrow-is-assigned allocation as the multinomial one. -/
def gPredictProbsMat (lnf expf : α → α) (ln2pi : α) (g : GaussianFit α β)
    (x : JsMatrix α) : List (Option (List α)) :=
  (List.range x.nrow).foldl
    (fun ret i =>
      jsArraySet ret i
        (lseNormalize lnf expf
          ((List.range g.nclass).map (fun j =>
            calcGaussianProb ln2pi g (fun k => x.get i k) j))))
    [none]

/-- GaussianFit.predictProbs. -/
def gPredictProbs (lnf expf : α → α) (ln2pi : α) (g : GaussianFit α β) :
    MObs α → ProbsOut α
  | .aa rows => .many (gPredictProbsMat lnf expf ln2pi g (toMatrix rows))
  | .mat x => .many (gPredictProbsMat lnf expf ln2pi g x)
  | .vec v => .one (lseNormalize lnf expf (gProbsLogLikSingle ln2pi g v))

end FieldDefs

section Fit

variable {β : Type} [DecidableEq β] [Inhabited β]

/-- A pointwise write into the function modelling a dstructs-matrix, as
cprob.set(j, i, val) performs it. -/
def matSet (f : ℕ → ℕ → ℚ) (a b : ℕ) (v : ℚ) : ℕ → ℕ → ℚ :=
  fun a' b' => if a' = a ∧ b' = b then v else f a' b'

/-- One iteration of the class loop of MultinomialFit.fitMultinomial: gather
the row indices of class classes[i], store the per-feature column sums into an
Int32Array (hence the toInt32 conversion on each entry), total them, and write
prior[c] and column i of cprob. -/
def fitStep (lnf : ℚ → ℚ) (x : JsMatrix ℚ) (y : List β) (alpha : ℚ) (classes : List β)
    (st : (β → ℚ) × (ℕ → ℕ → ℚ)) (i : ℕ) : (β → ℚ) × (ℕ → ℕ → ℚ) :=
  let c := classes.getD i default
  let ids := classIds y x.nrow c
  let counts : ℕ → ℤ := fun j => toInt32 ((ids.map (fun r => x.get r j)).sum)
  let totalCount : ℚ := ((List.range x.ncol).map (fun j => ((counts j : ℚ)))).sum
  let prior2 := Function.update st.1 c (lnf ((ids.length : ℚ) / (x.nrow : ℚ)))
  let cprob2 := (List.range x.ncol).foldl
    (fun cp j => matSet cp j i (lnf ((counts j : ℚ) + alpha) - lnf (totalCount + (x.ncol : ℚ) * alpha)))
    st.2
  (prior2, cprob2)

/-- MultinomialFit(x, y, alpha) followed by this.fitMultinomial(x, y): record
the shape, the unique classes and alpha, then run the class loop building
prior and cprob from the zero-initialized matrix and empty object. -/
def fitMultinomial (lnf : ℚ → ℚ) (x : JsMatrix ℚ) (y : List β) (alpha : ℚ) :
    MultinomialFit ℚ β :=
  let classes := uniqueFirst y
  let fitted := (List.range classes.length).foldl (fitStep lnf x y alpha classes)
    (fun _ => 0, fun _ _ => 0)
  ⟨x.nrow, x.ncol, classes.length, classes, alpha, fitted.1, fitted.2⟩

end Fit

section Score

variable {β : Type} [DecidableEq β] {γ : Type}

/-- JavaScript property access yhat[i] on the value predict returned: index
into an array, undefined (none) on a primitive label. -/
def jsIndex : PredOut β → ℕ → Option β
  | .many l, i => l[i]?
  | .one _, _ => none

/-- An argument of score as the validate.io-array-like collaborator
classifies it: a sequence-like value, or anything that fails the check. -/
inductive ScoreArg (γ : Type) : Type where
  | seqLike (v : γ)
  | notArrayLike

/-- The score method (lib/score.js), parameterized by the this.predict of the
fitted model it is installed on.  After the two array-like checks it counts
the indices below y.length at which yhat[i] === y[i] and divides by
y.length; there is no comparison of the two lengths. -/
def score (predictF : γ → PredOut β) : ScoreArg γ → ScoreArg (List β) → Except JsErr (Option ℚ)
  | .notArrayLike, _ => .error .typeError
  | .seqLike _, .notArrayLike => .error .typeError
  | .seqLike x, .seqLike ys =>
    let yhat := predictF x
    let n := ys.length
    let acc : ℚ := (List.range n).foldl
      (fun acc i => if jsIndex yhat i = ys[i]? then acc + 1 else acc) 0
    .ok (jsDiv acc (n : ℚ))

end Score

section EntryPoint

variable {β : Type} [DecidableEq β]

/-- A JavaScript primitive as far as the multinomNB options handling needs to
distinguish values: numbers, undefined, null, booleans and strings (a string
is tracked only up to emptiness, which decides its truthiness). -/
inductive JsPrim : Type where
  | jnum (q : ℚ)
  | jundef
  | jnull
  | jbool (b : Bool)
  | jstr (empty : Bool)
deriving DecidableEq

/-- JavaScript truthiness of a primitive. -/
def JsPrim.truthy : JsPrim → Bool
  | .jnum q => decide (q ≠ 0)
  | .jundef => false
  | .jnull => false
  | .jbool b => b
  | .jstr e => !e

/-- The validate.io-number-primitive collaborator. -/
def JsPrim.isNumber : JsPrim → Bool
  | .jnum _ => true
  | _ => false

/-- The options object of multinomNB: it either owns an alpha property (of
any primitive type) or it does not. -/
structure JsOpts : Type where
  alpha : Option JsPrim

/-- The first argument of multinomNB as the two validators classify it: an
array of arrays, a matrix-like value, or anything else. -/
inductive MatArg : Type where
  | arrArr (rows : List (List ℚ))
  | matr (m : JsMatrix ℚ)
  | notMat

/-- The second argument of multinomNB as validate.io-array-like classifies
it. -/
inductive SeqArg (β : Type) : Type where
  | seq (ys : List β)
  | notSeq

/-- The argument triple multinomNB hands to the MultinomialFit constructor
when validation falls through: the (possibly converted) matrix, the labels,
and the resolved alpha argument. -/
structure MultinomCall (β : Type) : Type where
  xm : JsMatrix ℚ
  ys : List β
  alphaArg : JsPrim

/-- The condition of the guard around the alpha validation in multinomNB.
The source tests arguments > 2 on the arguments object itself rather than
its length; the relational comparison coerces the object to NaN, and
NaN > 2 is false, so the guarded validation block is unreachable. -/
def argumentsGtTwo : Bool := false

/-- Resolution of the first argument of multinomNB: an array of arrays is
converted with toMatrix, a matrix passes through, anything else is a
TypeError. -/
def resolveX : MatArg → Option (JsMatrix ℚ)
  | .arrArr rows => some (toMatrix rows)
  | .matr mm => some mm
  | .notMat => none

/-- multinomNB(x, y[, opts]) from lib/index.js: validate x and y, then run
the (dead) alpha validation guard, then evaluate alpha = opts.alpha || 1 --
which reads the alpha property of opts and therefore throws a TypeError when
the opts argument was not supplied -- and construct the fit. -/
def multinomNB (x : MatArg) (y : SeqArg β) (opts : Option JsOpts) :
    Except JsErr (MultinomCall β) :=
  match resolveX x with
  | none => .error .typeError
  | some xm =>
    match y with
    | .notSeq => .error .typeError
    | .seq ys =>
      if argumentsGtTwo &&
          (match opts with
           | some o => match o.alpha with
             | some a => !a.isNumber
             | none => false
           | none => false) then
        .error .typeError
      else
        match opts with
        | none => .error .typeError
        | some o =>
          let av := o.alpha.getD .jundef
          let alphaArg := if av.truthy then av else .jnum 1
          .ok ⟨xm, ys, alphaArg⟩

end EntryPoint

section JsNumDefs

/-- A JavaScript double as the multinomial log-likelihood loops can see it:
a finite value (idealized as a rational), one of the two infinities, or NaN.
Log conditional probabilities can be -Infinity (for example after fitting
with counts[j] + alpha equal to 0), which is what makes the presence or
absence of the zero short-circuit observable. -/
inductive JsNum : Type where
  | num (q : ℚ)
  | posInf
  | negInf
  | nan
deriving DecidableEq

/-- IEEE addition on JsNum. -/
def JsNum.add : JsNum → JsNum → JsNum
  | .nan, _ => .nan
  | _, .nan => .nan
  | .num a, .num b => .num (a + b)
  | .posInf, .negInf => .nan
  | .negInf, .posInf => .nan
  | .posInf, _ => .posInf
  | _, .posInf => .posInf
  | .negInf, _ => .negInf
  | _, .negInf => .negInf

/-- IEEE multiplication on JsNum; 0 times an infinity is NaN. -/
def JsNum.mul : JsNum → JsNum → JsNum
  | .nan, _ => .nan
  | _, .nan => .nan
  | .num a, .num b => .num (a * b)
  | .num a, .posInf => if 0 < a then .posInf else if a < 0 then .negInf else .nan
  | .posInf, .num a => if 0 < a then .posInf else if a < 0 then .negInf else .nan
  | .num a, .negInf => if 0 < a then .negInf else if a < 0 then .posInf else .nan
  | .negInf, .num a => if 0 < a then .negInf else if a < 0 then .posInf else .nan
  | .posInf, .posInf => .posInf
  | .posInf, .negInf => .negInf
  | .negInf, .posInf => .negInf
  | .negInf, .negInf => .posInf

/-- JavaScript truthiness of a double: 0 and NaN are falsy. -/
def JsNum.truthy : JsNum → Bool
  | .num q => decide (q ≠ 0)
  | .nan => false
  | .posInf => true
  | .negInf => true

variable {β : Type} [DecidableEq β] [Inhabited β]

/-- The predictOne log-likelihood loop of the multinomial model over
JavaScript number semantics, zero short-circuit included (source line
val = x[j] ? x[j] * this.cprob.get(j, i) : 0). -/
def mLogLikOneJS (m : MultinomialFit JsNum β) (x : ℕ → JsNum) : List JsNum :=
  (List.range m.classes.length).map (fun i =>
    (List.range m.p).foldl
      (fun acc k => acc.add (if (x k).truthy then (x k).mul (m.cprob k i) else .num 0))
      (m.prior (m.classes.getD i default)))

/-- The single-observation log-likelihood loop of predictProbs over
JavaScript number semantics; the source computes val = x[k] * cprob.get(k, j)
with no truthiness check. -/
def mProbsLogLikSingleJS (m : MultinomialFit JsNum β) (x : ℕ → JsNum) : List JsNum :=
  (List.range m.nclass).map (fun j =>
    (List.range m.p).foldl
      (fun acc k => acc.add ((x k).mul (m.cprob k j)))
      (m.prior (m.classes.getD j default)))

/-- The per-row log-likelihood loop of the matrix branch of predictProbs over
JavaScript number semantics; this branch does have the zero short-circuit. -/
def mProbsLogLikMatRowJS (m : MultinomialFit JsNum β) (x : JsMatrix JsNum) (i : ℕ) :
    List JsNum :=
  (List.range m.nclass).map (fun j =>
    (List.range m.p).foldl
      (fun acc k =>
        acc.add (if (x.get i k).truthy then (x.get i k).mul (m.cprob k j) else .num 0))
      (m.prior (m.classes.getD j default)))

end JsNumDefs

section SpecFormulas

variable {β : Type} [DecidableEq β]

/-- The per-class per-feature count exactly as the specification states it:
counts[j] is the sum of x[row][j] over the rows whose label is c (no
Int32Array store in between). -/
def colSum (x : JsMatrix ℚ) (y : List β) (c : β) (j : ℕ) : ℚ :=
  ((classIds y x.nrow c).map (fun r => x.get r j)).sum

/-- The per-class total count exactly as the specification states it:
totalCount is the sum of counts[j] over all features j. -/
def totalSum (x : JsMatrix ℚ) (y : List β) (c : β) : ℚ :=
  ((List.range x.ncol).map (fun j => colSum x y c j)).sum

/-- The value fitMultinomial actually writes into cprob[j][i]: the column
sums pass through an Int32Array slot (toInt32) before the logarithms are
taken, both for counts[j] and inside totalCount. -/
def cprobWritten {β2 : Type} [DecidableEq β2] [Inhabited β2] (lnf : ℚ → ℚ) (x : JsMatrix ℚ)
    (y : List β2) (alpha : ℚ) (classes : List β2) (i j : ℕ) : ℚ :=
  lnf ((toInt32 (colSum x y (classes.getD i default) j) : ℚ) + alpha)
    - lnf (((List.range x.ncol).map
        (fun j2 => ((toInt32 (colSum x y (classes.getD i default) j2) : ℚ)))).sum
      + (x.ncol : ℚ) * alpha)

/-- The number of predictions a predict call returned: the length of the
returned array, or 1 when a single label came back. -/
def predCount {β : Type} : PredOut β → ℕ
  | .many l => l.length
  | .one _ => 1

end SpecFormulas

section ConcreteInputs

/-- A concrete stand-in interpretation of Math.log used to evaluate the
fitting pipeline on explicit inputs (any function works; the squaring map
separates the argument values the code passes to the logarithm from the ones
the specification says it passes). -/
def sqr (q : ℚ) : ℚ := q * q

/-- The end-to-end example matrix of the specification, x = [[2,0],[0,2]]. -/
def xm0 : JsMatrix ℚ := toMatrix [[2, 0], [0, 2]]

/-- The multinomial model fitted on the specification example with labels
[0,1] and alpha = 1, with sqr interpreting the logarithm. -/
def mFit0 : MultinomialFit ℚ ℚ := fitMultinomial sqr xm0 [0, 1] 1

/-- A one-row design matrix whose single class has feature-0 count 2^31: the
column sum no longer fits in an Int32Array slot. -/
def xBig : JsMatrix ℚ := toMatrix [[2147483648, 0]]

/-- A degenerate fitted multinomial state over JavaScript numbers whose only
conditional log-probability is -Infinity, as fitting produces when
counts[j] + alpha is 0 (the ln(0) case Laplace smoothing normally guards). -/
def mJ0 : MultinomialFit JsNum ℚ :=
  ⟨1, 1, 1, [0], .num 1, fun _ => .num 0, fun _ _ => .negInf⟩

/-- The all-zero observation, on which the zero short-circuit matters. -/
def xJ0 : ℕ → JsNum := fun _ => .num 0

/-- A fitted multinomial state over JavaScript numbers with all parameters
finite. -/
def mJfin : MultinomialFit JsNum ℚ :=
  ⟨1, 1, 1, [0], .num 1, fun _ => .num 0, fun _ _ => .num (-7)⟩

/-- A finite observation with a zero-valued feature. -/
def xJfin : ℕ → JsNum := fun _ => .num 0

/-- A concrete Gaussian model state over the reals used to witness the
probability-normalization theorem. -/
def gR0 : GaussianFit ℝ ℚ :=
  ⟨2, 1, 1, [0], fun _ => 0, fun _ _ => 0, fun _ _ => 1⟩

/-- A concrete multinomial model state over the reals used to witness the
probability-normalization theorem. -/
def mR0 : MultinomialFit ℝ ℚ :=
  ⟨2, 1, 2, [0, 1], 1, fun _ => 0, fun _ _ => 0⟩

/-- A minimal one-class multinomial model state (the shape fitting produces
on a one-row, one-feature design matrix); its predict returns the single
class label for every observation, which is all the score claims need. -/
def mSmall : MultinomialFit ℚ ℚ :=
  ⟨1, 1, 1, [0], 1, fun _ => 0, fun _ _ => 0⟩

end ConcreteInputs

section BasicLemmas

/-- An accumulate-into-the-left fold of additions is the initial value plus
the list sum. -/
theorem foldl_add_eq_sum {M : Type} [AddCommMonoid M] (f : ℕ → M) (l : List ℕ) (init : M) :
    l.foldl (fun acc j => acc + f j) init = init + (l.map f).sum := by
  induction l generalizing init with
  | nil => simp
  | cons a t ih => simp [List.foldl_cons, ih, add_assoc]

end BasicLemmas

/-- Claim C5: for every Gaussian model state, observation vector and class
index, calcGaussianProb computes prior[classes[i]] plus the sum over features
j of -0.5 * ln(2pi) * sigma[j][i] - 0.5 * (v[j] - mu[j][i]) / sigma[j][i] --
the nonstandard formula of the source (sigma multiplies the ln(2pi) term and
the residual is divided unsquared by sigma), stated for every interpretation
ln2pi of the constant ln(2*PI). -/
theorem claim_C5_gaussian_loglik {α : Type} [LinearOrderedField α] {β : Type}
    [DecidableEq β] [Inhabited β] (ln2pi : α) (g : GaussianFit α β) (x : ℕ → α) (i : ℕ) :
    calcGaussianProb ln2pi g x i
      = g.prior (g.classes.getD i default)
        + ((List.range g.p).map (fun j =>
            -(1/2) * ln2pi * g.sigma j i - (1/2) * (x j - g.mu j i) / g.sigma j i)).sum := by
  unfold calcGaussianProb
  exact foldl_add_eq_sum _ _ _

/-- Claim C10: for both families, predictProbs on a zero-row matrix returns
the one-slot array whose single entry is undefined, because the result array
is allocated as new Array(nrow) while nrow is still undefined and the row
loop never runs. -/
theorem claim_C10_zero_row_probs {α : Type} [LinearOrderedField α] {β : Type}
    [DecidableEq β] [Inhabited β] :
    (∀ (lnf expf : α → α) (m : MultinomialFit α β) (x : JsMatrix α), x.nrow = 0 →
       mPredictProbs lnf expf m (.mat x) = .many [none])
    ∧ (∀ (lnf expf : α → α) (ln2pi : α) (g : GaussianFit α β) (x : JsMatrix α), x.nrow = 0 →
       gPredictProbs lnf expf ln2pi g (.mat x) = .many [none]) := by
  constructor
  · intro lnf expf m x h
    simp [mPredictProbs, mPredictProbsMat, h]
  · intro lnf expf ln2pi g x h
    simp [gPredictProbs, gPredictProbsMat, h]

/-- Witness for claim C10 at a concrete zero-row matrix, for both families. -/
theorem claim_C10_witness :
    mPredictProbs sqr sqr mFit0 (.mat ⟨0, 2, fun _ _ => 0⟩) = .many [none]
    ∧ gPredictProbs id id 1 (⟨2, 1, 1, [(0 : ℚ)], fun _ => 0, fun _ _ => 0, fun _ _ => 1⟩ :
        GaussianFit ℚ ℚ) (.mat ⟨0, 2, fun _ _ => 0⟩) = .many [none] :=
  ⟨(claim_C10_zero_row_probs.1 sqr sqr mFit0 ⟨0, 2, fun _ _ => 0⟩ rfl),
   (claim_C10_zero_row_probs.2 id id 1 _ ⟨0, 2, fun _ _ => 0⟩ rfl)⟩

/-- Claim C9: for both families, predict on a matrix maps predictOne over the
rows in order, predict on a vector is predictOne, and for a one-row matrix
the returned one-element sequence holds exactly predict of that row given as
a vector. -/
theorem claim_C9_dual_arity {α : Type} [LinearOrderedField α] {β : Type}
    [DecidableEq β] [Inhabited β] :
    (∀ (m : MultinomialFit α β) (x : JsMatrix α),
       mPredict m (.mat x)
         = .many ((List.range x.nrow).map (fun i => mPredictOne m (rowOf x i))))
    ∧ (∀ (m : MultinomialFit α β) (v : ℕ → α), mPredict m (.vec v) = .one (mPredictOne m v))
    ∧ (∀ (m : MultinomialFit α β) (x : JsMatrix α), x.nrow = 1 →
       mPredict m (.mat x) = .many [mPredictOne m (rowOf x 0)]
         ∧ mPredict m (.vec (rowOf x 0)) = .one (mPredictOne m (rowOf x 0)))
    ∧ (∀ (ln2pi : α) (g : GaussianFit α β) (x : JsMatrix α),
       gPredict ln2pi g (.mat x)
         = .many ((List.range x.nrow).map (fun i => gPredictOne ln2pi g (rowOf x i))))
    ∧ (∀ (ln2pi : α) (g : GaussianFit α β) (v : ℕ → α),
       gPredict ln2pi g (.vec v) = .one (gPredictOne ln2pi g v))
    ∧ (∀ (ln2pi : α) (g : GaussianFit α β) (x : JsMatrix α), x.nrow = 1 →
       gPredict ln2pi g (.mat x) = .many [gPredictOne ln2pi g (rowOf x 0)]
         ∧ gPredict ln2pi g (.vec (rowOf x 0)) = .one (gPredictOne ln2pi g (rowOf x 0))) := by
  refine ⟨fun m x => rfl, fun m v => rfl, ?_, fun ln2pi g x => rfl, fun ln2pi g v => rfl, ?_⟩
  · intro m x h
    constructor
    · have h1 : mPredict m (.mat x)
          = .many ((List.range x.nrow).map (fun i => mPredictOne m (rowOf x i))) := rfl
      rw [h1, h]
      simp [List.range_succ]
    · rfl
  · intro ln2pi g x h
    constructor
    · have h1 : gPredict ln2pi g (.mat x)
          = .many ((List.range x.nrow).map (fun i => gPredictOne ln2pi g (rowOf x i))) := rfl
      rw [h1, h]
      simp [List.range_succ]
    · rfl

/-- Witness for claim C9 at the one-row matrix [[2, 0]] and the model fitted
on the specification example. -/
theorem claim_C9_witness :
    mPredict mFit0 (.mat (toMatrix [[2, 0]]))
      = .many [mPredictOne mFit0 (rowOf (toMatrix [[2, 0]]) 0)]
    ∧ mPredict mFit0 (.vec (rowOf (toMatrix [[2, 0]]) 0))
      = .one (mPredictOne mFit0 (rowOf (toMatrix [[2, 0]]) 0)) :=
  claim_C9_dual_arity.2.2.1 mFit0 (toMatrix [[2, 0]]) rfl

/-- Claim C1: evidence for the divergence of multinomNB from its own
documentation.  On valid x and y, (a) omitting the opts argument throws a
TypeError, because alpha = opts.alpha || 1 reads a property of undefined
(the JSDoc declares opts optional); (b) a non-numeric opts.alpha does not
throw -- the validation block is dead behind the always-false arguments > 2
guard -- and the string is handed to the constructor as alpha; (c) an opts
object without alpha resolves alpha to 1. -/
theorem claim_C1_entry_behavior :
    multinomNB (MatArg.arrArr [[2, 0], [0, 2]]) (SeqArg.seq [(0 : ℚ), 1]) none
      = .error .typeError
    ∧ multinomNB (MatArg.arrArr [[2, 0], [0, 2]]) (SeqArg.seq [(0 : ℚ), 1])
        (some ⟨some (.jstr false)⟩)
      = .ok ⟨toMatrix [[2, 0], [0, 2]], [(0 : ℚ), 1], .jstr false⟩
    ∧ multinomNB (MatArg.arrArr [[2, 0], [0, 2]]) (SeqArg.seq [(0 : ℚ), 1]) (some ⟨none⟩)
      = .ok ⟨toMatrix [[2, 0], [0, 2]], [(0 : ℚ), 1], .jnum 1⟩ :=
  ⟨rfl, rfl, rfl⟩

section ScoreLemmas

variable {β γ : Type} [DecidableEq β]

/-- A conditional-increment fold counts the indices satisfying the
predicate. -/
theorem foldl_count_eq (p : ℕ → Prop) [DecidablePred p] (l : List ℕ) :
    ∀ c : ℚ, l.foldl (fun acc i => if p i then acc + 1 else acc) c
      = c + ((l.filter (fun i => decide (p i))).length : ℚ) := by
  induction l with
  | nil => intro c; simp
  | cons a t ih =>
    intro c
    by_cases h : p a
    · rw [List.foldl_cons, if_pos h, ih]
      have hf : List.filter (fun i => decide (p i)) (a :: t)
          = a :: List.filter (fun i => decide (p i)) t := by
        simp [List.filter_cons, h]
      rw [hf, List.length_cons]
      push_cast
      ring
    · rw [List.foldl_cons, if_neg h, ih]
      have hf : List.filter (fun i => decide (p i)) (a :: t)
          = List.filter (fun i => decide (p i)) t := by
        simp [List.filter_cons, h]
      rw [hf]

/-- On two sequence-like arguments score always returns a value: the number
of indices below y.length at which the prediction array agrees with y,
divided (in the JavaScript sense) by y.length. -/
theorem score_seqLike_eq (predictF : γ → PredOut β) (x : γ) (ys : List β) :
    score predictF (.seqLike x) (.seqLike ys)
      = .ok (jsDiv (((List.range ys.length).filter
            (fun i => decide (jsIndex (predictF x) i = ys[i]?))).length : ℚ) (ys.length : ℚ)) := by
  show Except.ok (jsDiv ((List.range ys.length).foldl
      (fun acc i => if jsIndex (predictF x) i = ys[i]? then acc + 1 else acc) 0)
      ((ys.length : ℚ))) = _
  rw [foldl_count_eq (fun i => jsIndex (predictF x) i = ys[i]?) (List.range ys.length) 0,
    zero_add]

end ScoreLemmas

/-- Claim C2 (amended): score performs no length-consistency check between
the predictions and the labels; on any two sequence-like inputs it returns
the count of indices k below y.length with yhat[k] === y[k] (an index beyond
the prediction array reads undefined and never matches) divided by y.length,
whatever the number of predictions was. -/
theorem claim_C2_amended_no_length_check {β γ : Type} [DecidableEq β]
    (predictF : γ → PredOut β) (x : γ) (ys : List β) :
    score predictF (.seqLike x) (.seqLike ys)
      = .ok (jsDiv (((List.range ys.length).filter
            (fun i => decide (jsIndex (predictF x) i = ys[i]?))).length : ℚ) (ys.length : ℚ)) :=
  score_seqLike_eq predictF x ys

/-- Claim C2 (counterexample): predict of the one-row matrix [[0]] under the
one-class model returns exactly one prediction while y has length two, and
score succeeds with 1/2 instead of failing with an invalid-argument error. -/
theorem claim_C2_counterexample :
    predCount (mPredict mSmall (MObs.aa [[0]])) = 1
    ∧ ([(0 : ℚ), 1] : List ℚ).length = 2
    ∧ score (mPredict mSmall) (.seqLike (MObs.aa [[0]])) (.seqLike [(0 : ℚ), 1])
        = .ok (some (1 / 2)) := by
  have hpred : mPredict mSmall (MObs.aa [[0]]) = .many [0] := by
    show PredOut.many (mPredictMat mSmall (toMatrix [[0]])) = _
    simp [mPredictMat, mSmall, toMatrix, argmaxFrom, argmaxLoop, List.range_succ]
  refine ⟨by rw [hpred]; rfl, rfl, ?_⟩
  rw [score_seqLike_eq, hpred]
  norm_num [jsDiv, jsIndex, List.range_succ, List.filter_cons]
  rw [if_neg (fun h => Option.noConfusion h)]
  norm_num

/-- Claim C3 (amended): score throws a TypeError when either argument is not
sequence-like; on sequence-like arguments with y nonempty it returns the
count of indices at which the predictions agree with y divided by y.length,
a rational in the interval [0, 1].  (When y is empty the division is 0/0 and
the result is NaN; see the counterexample.) -/
theorem claim_C3_amended_score_accuracy {β γ : Type} [DecidableEq β]
    (predictF : γ → PredOut β) :
    (∀ y : ScoreArg (List β), score predictF .notArrayLike y = .error .typeError)
    ∧ (∀ x : γ, score predictF (.seqLike x) .notArrayLike = .error .typeError)
    ∧ (∀ (x : γ) (ys : List β), ys ≠ [] →
       ∃ q : ℚ, score predictF (.seqLike x) (.seqLike ys) = .ok (some q)
         ∧ q = (((List.range ys.length).filter
              (fun i => decide (jsIndex (predictF x) i = ys[i]?))).length : ℚ) / (ys.length : ℚ)
         ∧ 0 ≤ q ∧ q ≤ 1) := by
  refine ⟨fun y => rfl, fun x => rfl, ?_⟩
  intro x ys hne
  have hn : (0 : ℚ) < (ys.length : ℚ) := by
    exact_mod_cast List.length_pos.mpr hne
  have hcnt : (((List.range ys.length).filter
      (fun i => decide (jsIndex (predictF x) i = ys[i]?))).length : ℚ) ≤ (ys.length : ℚ) := by
    have h1 := List.length_filter_le
      (fun i => decide (jsIndex (predictF x) i = ys[i]?)) (List.range ys.length)
    have h2 : ((List.range ys.length).filter
        (fun i => decide (jsIndex (predictF x) i = ys[i]?))).length ≤ ys.length := by
      simpa using h1
    exact_mod_cast h2
  refine ⟨_, ?_, rfl, ?_, ?_⟩
  · rw [score_seqLike_eq predictF x ys]
    unfold jsDiv
    rw [if_neg hn.ne']
  · positivity
  · rw [div_le_one hn]
    exact hcnt

/-- Witness for claim C3 (amended) on the specification example. -/
theorem claim_C3_witness :
    ∃ q : ℚ, score (mPredict mFit0) (.seqLike (MObs.aa [[2, 0], [0, 2]]))
        (.seqLike [(0 : ℚ), 1]) = .ok (some q)
      ∧ q = (((List.range ([(0 : ℚ), 1] : List ℚ).length).filter
           (fun i => decide (jsIndex (mPredict mFit0 (MObs.aa [[2, 0], [0, 2]])) i
             = ([(0 : ℚ), 1] : List ℚ)[i]?))).length : ℚ) / (([(0 : ℚ), 1] : List ℚ).length : ℚ)
      ∧ 0 ≤ q ∧ q ≤ 1 :=
  (claim_C3_amended_score_accuracy (mPredict mFit0)).2.2
    (MObs.aa [[2, 0], [0, 2]]) [(0 : ℚ), 1] (by decide)

/-- Claim C3 (counterexample): on the empty label vector, score divides 0 by
0 and returns NaN, which is not a number in [0, 1]. -/
theorem claim_C3_counterexample :
    score (mPredict mSmall) (.seqLike (MObs.aa [[0]])) (.seqLike ([] : List ℚ)) = .ok none
    ∧ ¬ ∃ q : ℚ,
        score (mPredict mSmall) (.seqLike (MObs.aa [[0]])) (.seqLike ([] : List ℚ))
          = .ok (some q) ∧ 0 ≤ q ∧ q ≤ 1 := by
  have h0 : score (mPredict mSmall) (.seqLike (MObs.aa [[0]])) (.seqLike ([] : List ℚ))
      = .ok none := by
    rw [score_seqLike_eq]
    norm_num [jsDiv]
  refine ⟨h0, ?_⟩
  rintro ⟨q, hq, -, -⟩
  rw [h0] at hq
  simp at hq

/-- Claim C6 (counterexample): on a well-formed one-class model state whose
only conditional log-probability is -Infinity and the all-zero observation,
the single-observation predictProbs log-likelihood (no zero short-circuit,
0 * -Infinity = NaN) differs from the predictOne log-likelihood (whose
short-circuit makes the zero feature contribute exactly 0). -/
theorem claim_C6_counterexample :
    mJ0.nclass = mJ0.classes.length
    ∧ mProbsLogLikSingleJS mJ0 xJ0 ≠ mLogLikOneJS mJ0 xJ0 := by
  refine ⟨rfl, ?_⟩
  have h1 : mProbsLogLikSingleJS mJ0 xJ0 = [JsNum.nan] := by
    simp [mProbsLogLikSingleJS, mJ0, xJ0, List.range_succ, JsNum.mul, JsNum.add, lt_irrefl]
  have h2 : mLogLikOneJS mJ0 xJ0 = [JsNum.num 0] := by
    simp [mLogLikOneJS, mJ0, xJ0, List.range_succ, JsNum.truthy, JsNum.add]
  rw [h1, h2]
  simp

/-- Claim C6 (amended): in the matrix branch predictProbs computes each
per-class log-likelihood exactly as predict does, zero short-circuit
included; in the single-observation branch the short-circuit is absent, and
the loop agrees with the predictOne one only under the assumption that the
observation and the conditional log-probabilities are finite (a zero-valued
feature then contributes 0 * cprob[j][i] = 0 numerically); with a -Infinity
cprob entry the two branches differ. -/
theorem claim_C6_amended {β : Type} [DecidableEq β] [Inhabited β]
    (m : MultinomialFit JsNum β) (hwf : m.nclass = m.classes.length) :
    (∀ (x : JsMatrix JsNum) (i : ℕ),
        mProbsLogLikMatRowJS m x i = mLogLikOneJS m (rowOf x i))
    ∧ (∀ x : ℕ → JsNum,
        (∀ k, k < m.p → ∃ q : ℚ, x k = .num q) →
        (∀ k j, k < m.p → j < m.classes.length → ∃ q : ℚ, m.cprob k j = .num q) →
        mProbsLogLikSingleJS m x = mLogLikOneJS m x) := by
  constructor
  · intro x i
    unfold mProbsLogLikMatRowJS mLogLikOneJS
    rw [hwf]
    rfl
  · intro x hx hc
    unfold mProbsLogLikSingleJS mLogLikOneJS
    rw [hwf]
    refine List.map_congr_left ?_
    intro j hj
    have hj2 : j < m.classes.length := List.mem_range.mp hj
    refine List.foldl_ext _ _ _ ?_
    intro acc k hk
    have hk2 : k < m.p := List.mem_range.mp hk
    obtain ⟨q, hq⟩ := hx k hk2
    by_cases h0 : q = 0
    · obtain ⟨c, hcq⟩ := hc k j hk2 hj2
      subst h0
      rw [hq, hcq]
      simp [JsNum.truthy, JsNum.mul]
    · rw [hq]
      simp [JsNum.truthy, h0]

/-- Witness for claim C6 (amended) at the all-finite one-class model and the
zero observation. -/
theorem claim_C6_witness :
    mProbsLogLikSingleJS mJfin xJfin = mLogLikOneJS mJfin xJfin :=
  (claim_C6_amended mJfin rfl).2 xJfin
    (fun _ _ => ⟨0, rfl⟩)
    (fun _ _ _ _ => ⟨-7, rfl⟩)

section LseLemmas

/-- Dividing every element of a list by a constant divides the sum. -/
theorem list_sum_map_div (l : List ℝ) (c : ℝ) :
    (l.map (fun v => v / c)).sum = l.sum / c := by
  induction l with
  | nil => simp
  | cons h t ih => simp [ih, add_div]

/-- The log-sum-exp normalization over the reals: the returned vector is,
entry by entry, exp(loglik - (a + ln(sum of exp(loglik - a)))); its entries
lie in [0, 1] and it sums to exactly 1 for a nonempty log-likelihood
vector. -/
theorem lseNormalize_real_spec (ll : List ℝ) (hne : ll ≠ []) :
    lseNormalize Real.log Real.exp ll
      = ll.map (fun v => Real.exp (v - (jsMax ll
          + Real.log ((ll.map (fun w => Real.exp (w - jsMax ll))).sum))))
    ∧ (lseNormalize Real.log Real.exp ll).sum = 1
    ∧ ∀ q ∈ lseNormalize Real.log Real.exp ll, 0 ≤ q ∧ q ≤ 1 := by
  have hform : lseNormalize Real.log Real.exp ll
      = ll.map (fun v => Real.exp (v - (jsMax ll
          + Real.log ((ll.map (fun w => Real.exp (w - jsMax ll))).sum)))) := rfl
  have hSpos : 0 < (ll.map (fun w => Real.exp (w - jsMax ll))).sum := by
    refine List.sum_pos _ (fun x hx => ?_) ?_
    · obtain ⟨w, -, rfl⟩ := List.mem_map.mp hx
      exact Real.exp_pos _
    · simpa using hne
  have hdiv : lseNormalize Real.log Real.exp ll
      = ll.map (fun v => Real.exp (v - jsMax ll)
          / (ll.map (fun w => Real.exp (w - jsMax ll))).sum) := by
    rw [hform]
    refine List.map_congr_left (fun v _ => ?_)
    rw [show v - (jsMax ll + Real.log ((ll.map (fun w => Real.exp (w - jsMax ll))).sum))
        = (v - jsMax ll) - Real.log ((ll.map (fun w => Real.exp (w - jsMax ll))).sum) by ring,
      Real.exp_sub, Real.exp_log hSpos]
  refine ⟨hform, ?_, ?_⟩
  · rw [hdiv]
    have hcomp : ll.map (fun v => Real.exp (v - jsMax ll)
          / (ll.map (fun w => Real.exp (w - jsMax ll))).sum)
        = (ll.map (fun w => Real.exp (w - jsMax ll))).map
            (fun t => t / (ll.map (fun w => Real.exp (w - jsMax ll))).sum) := by
      rw [List.map_map]
      rfl
    rw [hcomp, list_sum_map_div, div_self hSpos.ne']
  · intro q hq
    rw [hdiv] at hq
    obtain ⟨v, hv, rfl⟩ := List.mem_map.mp hq
    constructor
    · positivity
    · rw [div_le_one hSpos]
      exact List.single_le_sum (fun x hx => by
          obtain ⟨w, -, rfl⟩ := List.mem_map.mp hx
          exact (Real.exp_pos _).le) _
        (List.mem_map_of_mem _ hv)

end LseLemmas

/-- Claim C7: for both families, predictProbs on a single observation returns
exp(loglik_i - logNormalizer) in class order, where a is the maximum
log-likelihood and logNormalizer = a + ln(sum of exp(loglik_i - a)); every
entry lies in [0, 1] and the entries sum to exactly 1 (over the reals, the
idealization of floating-point tolerance). -/
theorem claim_C7_predict_probs {β : Type} [DecidableEq β] [Inhabited β] :
    (∀ (m : MultinomialFit ℝ β) (v : ℕ → ℝ), 0 < m.nclass →
      ∀ ps, mPredictProbs Real.log Real.exp m (.vec v) = .one ps →
        ps = (mProbsLogLikSingle m v).map (fun l =>
            Real.exp (l - (jsMax (mProbsLogLikSingle m v)
              + Real.log (((mProbsLogLikSingle m v).map (fun w =>
                  Real.exp (w - jsMax (mProbsLogLikSingle m v)))).sum))))
        ∧ ps.sum = 1
        ∧ ∀ q ∈ ps, 0 ≤ q ∧ q ≤ 1)
    ∧ (∀ (ln2pi : ℝ) (g : GaussianFit ℝ β) (v : ℕ → ℝ), 0 < g.nclass →
      ∀ ps, gPredictProbs Real.log Real.exp ln2pi g (.vec v) = .one ps →
        ps = (gProbsLogLikSingle ln2pi g v).map (fun l =>
            Real.exp (l - (jsMax (gProbsLogLikSingle ln2pi g v)
              + Real.log (((gProbsLogLikSingle ln2pi g v).map (fun w =>
                  Real.exp (w - jsMax (gProbsLogLikSingle ln2pi g v)))).sum))))
        ∧ ps.sum = 1
        ∧ ∀ q ∈ ps, 0 ≤ q ∧ q ≤ 1) := by
  constructor
  · intro m v hnc ps hps
    have hred : mPredictProbs Real.log Real.exp m (.vec v)
        = .one (lseNormalize Real.log Real.exp (mProbsLogLikSingle m v)) := rfl
    rw [hred] at hps
    injection hps with hps
    subst hps
    have hne : mProbsLogLikSingle m v ≠ [] := by
      refine List.ne_nil_of_length_pos ?_
      simpa [mProbsLogLikSingle] using hnc
    exact lseNormalize_real_spec (mProbsLogLikSingle m v) hne
  · intro ln2pi g v hnc ps hps
    have hred : gPredictProbs Real.log Real.exp ln2pi g (.vec v)
        = .one (lseNormalize Real.log Real.exp (gProbsLogLikSingle ln2pi g v)) := rfl
    rw [hred] at hps
    injection hps with hps
    subst hps
    have hne : gProbsLogLikSingle ln2pi g v ≠ [] := by
      refine List.ne_nil_of_length_pos ?_
      simpa [gProbsLogLikSingle] using hnc
    exact lseNormalize_real_spec (gProbsLogLikSingle ln2pi g v) hne

/-- Witness for claim C7: the probabilities returned for the zero observation
under concrete two-class multinomial and one-class Gaussian model states sum
to exactly 1. -/
theorem claim_C7_witness :
    (lseNormalize Real.log Real.exp (mProbsLogLikSingle mR0 (fun _ => 0))).sum = 1
    ∧ (lseNormalize Real.log Real.exp (gProbsLogLikSingle 1 gR0 (fun _ => 0))).sum = 1 :=
  ⟨((claim_C7_predict_probs.1 mR0 (fun _ => 0) (by norm_num [mR0]) _ rfl).2).1,
   ((claim_C7_predict_probs.2 1 gR0 (fun _ => 0) (by norm_num [gR0]) _ rfl).2).1⟩

section ArgmaxLemmas

variable {α : Type} [LinearOrderedField α] {β : Type} [Inhabited β]

/-- The running-maximum step of the source scans is the lattice max. -/
theorem ite_lt_eq_max (mx v : α) : (if mx < v then v else mx) = max mx v := by
  by_cases h : mx < v
  · rw [if_pos h, max_eq_right h.le]
  · rw [if_neg h, max_eq_left (not_lt.mp h)]

/-- The seed is below a left max-fold. -/
theorem le_foldl_max (l : List α) : ∀ s : α, s ≤ l.foldl max s := by
  induction l with
  | nil => intro s; exact le_refl s
  | cons a t ih => intro s; exact le_trans (le_max_left s a) (ih (max s a))

/-- Every member is below a left max-fold. -/
theorem mem_le_foldl_max (l : List α) : ∀ (s v : α), v ∈ l → v ≤ l.foldl max s := by
  induction l with
  | nil => intro s v h; cases h
  | cons a t ih =>
    intro s v h
    rcases List.mem_cons.mp h with rfl | h
    · exact le_trans (le_max_right s v) (le_foldl_max t (max s v))
    · exact ih (max s a) v h

/-- A left max-fold is the seed or a member. -/
theorem foldl_max_mem (l : List α) : ∀ s : α, l.foldl max s = s ∨ l.foldl max s ∈ l := by
  induction l with
  | nil => intro s; exact Or.inl rfl
  | cons a t ih =>
    intro s
    rcases ih (max s a) with h | h
    · rcases max_choice s a with hm | hm
      · exact Or.inl (by rw [List.foldl_cons, h, hm])
      · exact Or.inr (by rw [List.foldl_cons, h, hm]; exact List.mem_cons_self a t)
    · exact Or.inr (List.mem_cons_of_mem a h)

/-- The strict-greater running-maximum scan keeps the initial label when
nothing strictly exceeds the seed, and otherwise returns the label paired
with the first value reaching the overall maximum. -/
theorem argmaxLoop_spec (L : List (α × β)) : ∀ (mx : α) (a : β),
    argmaxLoop L mx a =
      if (L.map Prod.fst).foldl max mx ≤ mx then a
      else (((L.find? (fun q => decide ((L.map Prod.fst).foldl max mx ≤ q.1))).map
        Prod.snd).getD a) := by
  induction L with
  | nil =>
    intro mx a
    rw [List.map_nil, List.foldl_nil, if_pos (le_refl mx)]
    rfl
  | cons q rest ih =>
    obtain ⟨v, c⟩ := q
    intro mx a
    have hL : argmaxLoop ((v, c) :: rest) mx a
        = if mx < v then argmaxLoop rest v c else argmaxLoop rest mx a := rfl
    by_cases hlt : mx < v
    · have hmax : max mx v = v := max_eq_right hlt.le
      have hM : (((v, c) :: rest).map Prod.fst).foldl max mx
          = (rest.map Prod.fst).foldl max v := by
        rw [List.map_cons, List.foldl_cons, hmax]
      have hMmx : ¬ (((v, c) :: rest).map Prod.fst).foldl max mx ≤ mx := by
        rw [hM]
        intro hle
        exact absurd (le_trans (le_foldl_max _ v) hle) (not_le.mpr hlt)
      rw [hL, if_pos hlt, ih v c, if_neg hMmx, hM]
      by_cases hMv : (rest.map Prod.fst).foldl max v ≤ v
      · rw [if_pos hMv, List.find?_cons_of_pos _ (by simpa using hMv)]
        rfl
      · rw [if_neg hMv, List.find?_cons_of_neg _ (by simpa using hMv)]
        have hmem : (rest.map Prod.fst).foldl max v ∈ rest.map Prod.fst := by
          rcases foldl_max_mem (rest.map Prod.fst) v with h | h
          · exact absurd (h.le) hMv
          · exact h
        obtain ⟨q2, hq2, hq2v⟩ := List.mem_map.mp hmem
        cases hfind : rest.find? (fun q => decide ((rest.map Prod.fst).foldl max v ≤ q.1)) with
        | none =>
          exfalso
          have := List.find?_eq_none.mp hfind q2 hq2
          rw [hq2v] at this
          simp at this
        | some q3 => rfl
    · have hmax : max mx v = mx := max_eq_left (not_lt.mp hlt)
      have hM : (((v, c) :: rest).map Prod.fst).foldl max mx
          = (rest.map Prod.fst).foldl max mx := by
        rw [List.map_cons, List.foldl_cons, hmax]
      rw [hL, if_neg hlt, ih mx a, hM]
      by_cases hMx : (rest.map Prod.fst).foldl max mx ≤ mx
      · rw [if_pos hMx, if_pos hMx]
      · rw [if_neg hMx, if_neg hMx]
        have hpv : ¬ (rest.map Prod.fst).foldl max mx ≤ v := by
          intro hle
          exact hMx (le_trans hle (not_lt.mp hlt))
        rw [List.find?_cons_of_neg _ (by simpa using hpv)]

/-- findIdx is minimal: it is at most any index whose element satisfies the
predicate. -/
theorem findIdx_le_getD {σ : Type} (p : σ → Bool) (d : σ) :
    ∀ (l : List σ) (i : ℕ), i < l.length → p (l.getD i d) = true → l.findIdx p ≤ i := by
  intro l
  induction l with
  | nil => intro i hi; simp at hi
  | cons a t ih =>
    intro i hi hp
    rw [List.findIdx_cons]
    cases i with
    | zero =>
      rw [List.getD_cons_zero] at hp
      rw [hp]
      simp
    | succ n =>
      by_cases hpa : p a = true
      · rw [hpa]
        exact Nat.zero_le _
      · rw [Bool.not_eq_true] at hpa
        rw [hpa]
        simp only [Bool.cond_false]
        rw [List.getD_cons_succ] at hp
        exact Nat.succ_le_succ (ih n (by simpa using hi) hp)

/-- A find? over zipped (value, label) pairs keyed on the value returns the
label at the findIdx position of the value list. -/
theorem find?_zip_snd (p : α → Bool) : ∀ (ll : List α) (cls : List β) (dflt : β),
    ll.length = cls.length → (∃ v ∈ ll, p v = true) →
    (((ll.zip cls).find? (fun q => p q.1)).map Prod.snd).getD dflt
      = cls.getD (ll.findIdx p) default := by
  intro ll
  induction ll with
  | nil => intro cls dflt hlen hex; simp at hex
  | cons v t ih =>
    intro cls dflt hlen hex
    cases cls with
    | nil => simp at hlen
    | cons c cs =>
      by_cases hp : p v = true
      · rw [List.zip_cons_cons, List.find?_cons_of_pos _ (by simpa using hp),
          List.findIdx_cons]
        simp [hp]
      · rw [List.zip_cons_cons, List.find?_cons_of_neg _ (by simpa using hp),
          List.findIdx_cons]
        have hex2 : ∃ w ∈ t, p w = true := by
          rcases hex with ⟨w, hw, hpw⟩
          rcases List.mem_cons.mp hw with rfl | hw2
          · exact absurd hpw hp
          · exact ⟨w, hw2, hpw⟩
        rw [ih cs dflt (by simpa using hlen) hex2]
        simp [hp]

end ArgmaxLemmas

section ArgmaxFromSpec

variable {α : Type} [LinearOrderedField α] {β : Type} [DecidableEq β] [Inhabited β]

/-- The full source scan equals: the class label at the first index whose
log-likelihood reaches the maximum of the vector. -/
theorem argmaxFrom_spec (cls : List β) (ll : List α) (hlen : ll.length = cls.length) :
    argmaxFrom cls ll
      = cls.getD (ll.findIdx (fun w => decide (jsMax ll ≤ w))) default := by
  cases ll with
  | nil =>
    cases cls with
    | nil => rfl
    | cons b bs => simp at hlen
  | cons h t =>
    cases cls with
    | nil => simp at hlen
    | cons b bs =>
      have hlen2 : t.length = bs.length := by simpa using hlen
      have hjm : jsMax (h :: t) = t.foldl max h := by
        unfold jsMax
        rw [List.foldl_ext (fun mx v => if mx < v then v else mx) max _
          (fun acc b2 _ => ite_lt_eq_max acc b2)]
        rw [show (h :: t).getD 0 0 = h from rfl, List.foldl_cons, max_self]
      have hzip : ((h :: t).zip (b :: bs)).map Prod.fst = h :: t :=
        List.map_fst_zip _ _ (by rw [hlen])
      have hM : (((h :: t).zip (b :: bs)).map Prod.fst).foldl max h = t.foldl max h := by
        rw [hzip, List.foldl_cons, max_self]
      have hstart : argmaxFrom (b :: bs) (h :: t)
          = argmaxLoop ((h :: t).zip (b :: bs)) h b := rfl
      rw [hstart, argmaxLoop_spec]
      rw [hM]
      by_cases hMh : t.foldl max h ≤ h
      · rw [if_pos hMh, List.findIdx_cons]
        have hph : decide (jsMax (h :: t) ≤ h) = true := by
          rw [hjm]
          simpa using hMh
        rw [hph]
        rfl
      · rw [if_neg hMh]
        rw [List.zip_cons_cons, List.find?_cons_of_neg _ (by simpa using hMh),
          List.findIdx_cons]
        have hph : decide (jsMax (h :: t) ≤ h) = false := by
          rw [hjm]
          simpa using hMh
        rw [hph]
        have hex : ∃ v ∈ t, decide (jsMax (h :: t) ≤ v) = true := by
          rcases foldl_max_mem t h with hm | hm
          · exact absurd hm.le hMh
          · exact ⟨t.foldl max h, hm, by rw [hjm]; simp⟩
        have hconn := find?_zip_snd (fun w => decide (jsMax (h :: t) ≤ w)) t bs b hlen2 hex
        rw [← hjm]
        simpa using hconn

end ArgmaxFromSpec

/-- Claim C8: for both families predictOne returns the class label at the
first class index attaining the maximum log-likelihood (the strict > scan
never replaces the running maximum on a tie), and the findIdx index in the
equations is minimal among the indices attaining the maximum; determinism is
immediate since the functions are pure. -/
theorem claim_C8_tie_break {α : Type} [LinearOrderedField α] {β : Type}
    [DecidableEq β] [Inhabited β] :
    (∀ (m : MultinomialFit α β) (x : ℕ → α),
       mPredictOne m x = m.classes.getD
         ((mLogLikOne m x).findIdx (fun w => decide (jsMax (mLogLikOne m x) ≤ w))) default)
    ∧ (∀ (ln2pi : α) (g : GaussianFit α β) (x : ℕ → α),
       gPredictOne ln2pi g x = g.classes.getD
         (((List.range g.classes.length).map (fun i => calcGaussianProb ln2pi g x i)).findIdx
           (fun w => decide (jsMax ((List.range g.classes.length).map
             (fun i => calcGaussianProb ln2pi g x i)) ≤ w))) default)
    ∧ (∀ (ll : List α) (i : ℕ), i < ll.length → jsMax ll ≤ ll.getD i 0 →
       ll.findIdx (fun w => decide (jsMax ll ≤ w)) ≤ i) := by
  refine ⟨?_, ?_, ?_⟩
  · intro m x
    exact argmaxFrom_spec m.classes (mLogLikOne m x) (by simp [mLogLikOne])
  · intro ln2pi g x
    exact argmaxFrom_spec g.classes
      ((List.range g.classes.length).map (fun i => calcGaussianProb ln2pi g x i)) (by simp)
  · intro ll i hi hmax
    exact findIdx_le_getD _ 0 ll i hi (by simpa using hmax)

/-- Witness for claim C8: the prediction equation at a concrete model, and
minimality of the returned index on the concrete tied vector [0, 0]. -/
theorem claim_C8_witness :
    mPredictOne mSmall (fun _ => 0) = mSmall.classes.getD
      ((mLogLikOne mSmall (fun _ => 0)).findIdx
        (fun w => decide (jsMax (mLogLikOne mSmall (fun _ => 0)) ≤ w))) default
    ∧ [(0 : ℚ), 0].findIdx (fun w => decide (jsMax [(0 : ℚ), 0] ≤ w)) ≤ 1 :=
  ⟨claim_C8_tie_break.1 mSmall (fun _ => 0),
   (@claim_C8_tie_break ℚ _ ℚ _ _).2.2 [(0 : ℚ), 0] 1 (by norm_num)
     (by norm_num [jsMax, List.getD])⟩

section FitLemmas

variable {β : Type} [DecidableEq β] [Inhabited β]

/-- getD at an in-range index is the element. -/
theorem getD_eq_getElem {σ : Type} (l : List σ) (d : σ) (i : ℕ) (h : i < l.length) :
    l.getD i d = l[i] := by
  rw [List.getD_eq_getElem?_getD, List.getElem?_eq_getElem h]
  rfl

/-- Reading back the column that a fold of matrix writes over a list of row
indices has set: every index in the list holds its written value. -/
theorem matSetFold_get (v : ℕ → ℚ) (i0 : ℕ) :
    ∀ (js : List ℕ) (cp : ℕ → ℕ → ℚ) (j : ℕ),
      (js.foldl (fun cp2 j2 => matSet cp2 j2 i0 (v j2)) cp) j i0
        = if j ∈ js then v j else cp j i0 := by
  intro js
  induction js with
  | nil => intro cp j; simp
  | cons a t ih =>
    intro cp j
    rw [List.foldl_cons, ih]
    by_cases hj : j ∈ t
    · rw [if_pos hj, if_pos (List.mem_cons_of_mem a hj)]
    · rw [if_neg hj]
      by_cases hja : j = a
      · subst hja
        rw [if_pos (List.mem_cons_self j t)]
        simp [matSet]
      · rw [if_neg (by simp [List.mem_cons, hja, hj])]
        simp [matSet, hja]

/-- Writes into column i0 leave every other column unchanged. -/
theorem matSetFold_get_ne (v : ℕ → ℚ) (i0 i : ℕ) (hne : i ≠ i0) :
    ∀ (js : List ℕ) (cp : ℕ → ℕ → ℚ) (j : ℕ),
      (js.foldl (fun cp2 j2 => matSet cp2 j2 i0 (v j2)) cp) j i = cp j i := by
  intro js
  induction js with
  | nil => intro cp j; rfl
  | cons a t ih =>
    intro cp j
    rw [List.foldl_cons, ih]
    simp [matSet, hne]

/-- One fit iteration for class index a does not touch cprob columns other
than a. -/
theorem fitStep_cprob_ne (lnf : ℚ → ℚ) (x : JsMatrix ℚ) (y : List β) (alpha : ℚ)
    (classes : List β) (st : (β → ℚ) × (ℕ → ℕ → ℚ)) (a j i : ℕ) (hia : i ≠ a) :
    (fitStep lnf x y alpha classes st a).2 j i = st.2 j i := by
  unfold fitStep
  exact matSetFold_get_ne _ a i hia (List.range x.ncol) st.2 j

/-- One fit iteration for class index i writes cprobWritten into every cell
of column i with feature index below p. -/
theorem fitStep_cprob_eq (lnf : ℚ → ℚ) (x : JsMatrix ℚ) (y : List β) (alpha : ℚ)
    (classes : List β) (st : (β → ℚ) × (ℕ → ℕ → ℚ)) (i j : ℕ) (hj : j < x.ncol) :
    (fitStep lnf x y alpha classes st i).2 j i = cprobWritten lnf x y alpha classes i j := by
  simp only [fitStep]
  rw [matSetFold_get]
  rw [if_pos (List.mem_range.mpr hj)]
  rfl

/-- One fit iteration updates the prior object at exactly the key
classes[i]. -/
theorem fitStep_prior (lnf : ℚ → ℚ) (x : JsMatrix ℚ) (y : List β) (alpha : ℚ)
    (classes : List β) (st : (β → ℚ) × (ℕ → ℕ → ℚ)) (i : ℕ) :
    (fitStep lnf x y alpha classes st i).1
      = Function.update st.1 (classes.getD i default)
          (lnf (((classIds y x.nrow (classes.getD i default)).length : ℚ) / (x.nrow : ℚ))) := by
  rfl

/-- Fit iterations for class indices other than i leave cprob column i
unchanged. -/
theorem fitFold_cprob_ne (lnf : ℚ → ℚ) (x : JsMatrix ℚ) (y : List β) (alpha : ℚ)
    (classes : List β) :
    ∀ (is : List ℕ) (st : (β → ℚ) × (ℕ → ℕ → ℚ)) (j i : ℕ), i ∉ is →
      ((is.foldl (fitStep lnf x y alpha classes) st).2) j i = st.2 j i := by
  intro is
  induction is with
  | nil => intro st j i _; rfl
  | cons a t ih =>
    intro st j i h
    rw [List.foldl_cons, ih _ j i (fun hm => h (List.mem_cons_of_mem a hm))]
    exact fitStep_cprob_ne lnf x y alpha classes st a j i
      (fun he => h (he ▸ List.mem_cons_self a t))

/-- After the class loop over a duplicate-free index list, cprob holds the
written value at every processed column and in-range feature row. -/
theorem fitFold_cprob (lnf : ℚ → ℚ) (x : JsMatrix ℚ) (y : List β) (alpha : ℚ)
    (classes : List β) :
    ∀ (is : List ℕ), is.Nodup → ∀ (st : (β → ℚ) × (ℕ → ℕ → ℚ)) (i : ℕ), i ∈ is →
      ∀ j, j < x.ncol →
      ((is.foldl (fitStep lnf x y alpha classes) st).2) j i
        = cprobWritten lnf x y alpha classes i j := by
  intro is
  induction is with
  | nil => intro _ st i h; cases h
  | cons a t ih =>
    intro hnd st i hi j hj
    obtain ⟨hat, hndt⟩ := List.nodup_cons.mp hnd
    rw [List.foldl_cons]
    rcases List.mem_cons.mp hi with rfl | hit
    · rw [fitFold_cprob_ne lnf x y alpha classes t _ j i hat]
      exact fitStep_cprob_eq lnf x y alpha classes st i j hj
    · exact ih hndt _ i hit j hj

/-- Fit iterations whose class label differs from c leave prior[c]
unchanged. -/
theorem fitFold_prior_ne (lnf : ℚ → ℚ) (x : JsMatrix ℚ) (y : List β) (alpha : ℚ)
    (classes : List β) :
    ∀ (is : List ℕ) (st : (β → ℚ) × (ℕ → ℕ → ℚ)) (c : β),
      (∀ i2 ∈ is, classes.getD i2 default ≠ c) →
      ((is.foldl (fitStep lnf x y alpha classes) st).1) c = st.1 c := by
  intro is
  induction is with
  | nil => intro st c _; rfl
  | cons a t ih =>
    intro st c h
    rw [List.foldl_cons, ih _ c (fun i2 hi2 => h i2 (List.mem_cons_of_mem a hi2))]
    rw [fitStep_prior]
    exact Function.update_noteq (fun he => h a (List.mem_cons_self a t) he.symm) _ _

/-- After the class loop, prior[classes[i]] holds ln(nc / n) for every
processed index i, provided the index list and the classes are
duplicate-free. -/
theorem fitFold_prior (lnf : ℚ → ℚ) (x : JsMatrix ℚ) (y : List β) (alpha : ℚ)
    (classes : List β) (hcl : classes.Nodup) :
    ∀ (is : List ℕ), is.Nodup → (∀ i2 ∈ is, i2 < classes.length) →
      ∀ (st : (β → ℚ) × (ℕ → ℕ → ℚ)) (i : ℕ), i ∈ is →
      ((is.foldl (fitStep lnf x y alpha classes) st).1) (classes.getD i default)
        = lnf (((classIds y x.nrow (classes.getD i default)).length : ℚ) / (x.nrow : ℚ)) := by
  intro is
  induction is with
  | nil => intro _ _ st i h; cases h
  | cons a t ih =>
    intro hnd hbnd st i hi
    obtain ⟨hat, hndt⟩ := List.nodup_cons.mp hnd
    rw [List.foldl_cons]
    rcases List.mem_cons.mp hi with rfl | hit
    · have hpres : ∀ i2 ∈ t, classes.getD i2 default ≠ classes.getD i default := by
        intro i2 hi2 he
        have hi2b : i2 < classes.length := hbnd i2 (List.mem_cons_of_mem i hi2)
        have hib : i < classes.length := hbnd i (List.mem_cons_self i t)
        rw [getD_eq_getElem classes default i2 hi2b,
          getD_eq_getElem classes default i hib] at he
        exact hat (((List.Nodup.getElem_inj_iff hcl).mp he) ▸ hi2)
      rw [fitFold_prior_ne lnf x y alpha classes t _ _ hpres, fitStep_prior]
      exact Function.update_same _ _ _
    · exact ih hndt (fun i2 hi2 => hbnd i2 (List.mem_cons_of_mem a hi2)) _ i hit

/-- The accumulator-generalized distinct-labels fold keeps the accumulator
duplicate-free. -/
theorem uniqueFirst_aux_nodup :
    ∀ (l : List β) (acc : List β), acc.Nodup →
      (l.foldl (fun acc2 a => if a ∈ acc2 then acc2 else acc2 ++ [a]) acc).Nodup := by
  intro l
  induction l with
  | nil => intro acc h; exact h
  | cons a t ih =>
    intro acc h
    rw [List.foldl_cons]
    by_cases ha : a ∈ acc
    · rw [if_pos ha]
      exact ih acc h
    · rw [if_neg ha]
      refine ih _ ?_
      simp [List.nodup_append, h, ha]

/-- uniqueFirst produces a duplicate-free list. -/
theorem uniqueFirst_nodup (l : List β) : (uniqueFirst l).Nodup :=
  uniqueFirst_aux_nodup l [] List.nodup_nil

/-- Membership in the accumulator-generalized distinct-labels fold. -/
theorem uniqueFirst_aux_mem :
    ∀ (l : List β) (acc : List β) (c : β),
      c ∈ l.foldl (fun acc2 a => if a ∈ acc2 then acc2 else acc2 ++ [a]) acc
        ↔ c ∈ acc ∨ c ∈ l := by
  intro l
  induction l with
  | nil => intro acc c; simp
  | cons a t ih =>
    intro acc c
    rw [List.foldl_cons]
    by_cases ha : a ∈ acc
    · rw [if_pos ha, ih]
      constructor
      · rintro (h | h)
        · exact Or.inl h
        · exact Or.inr (List.mem_cons_of_mem a h)
      · rintro (h | h)
        · exact Or.inl h
        · rcases List.mem_cons.mp h with rfl | h2
          · exact Or.inl ha
          · exact Or.inr h2
    · rw [if_neg ha, ih]
      simp only [List.mem_append, List.mem_singleton, List.mem_cons]
      tauto

/-- uniqueFirst has the same members as its input. -/
theorem uniqueFirst_mem (l : List β) (c : β) : c ∈ uniqueFirst l ↔ c ∈ l := by
  rw [uniqueFirst, uniqueFirst_aux_mem]
  simp

/-- The ToInt32 conversion is the identity on natural values below 2^31. -/
theorem toInt32_natCast (k : ℕ) (hk : (k : ℚ) < 2147483648) : toInt32 (k : ℚ) = (k : ℤ) := by
  have hk2 : (k : ℤ) < 2147483648 := by exact_mod_cast hk
  have htr : jsTrunc (k : ℚ) = (k : ℤ) := by
    unfold jsTrunc
    rw [if_pos (by positivity)]
    exact Int.floor_natCast k
  unfold toInt32
  rw [htr, Int.emod_eq_of_lt (by positivity) (by omega), if_pos hk2]

/-- The cprob cell fitMultinomial produces, for in-range class and feature
indices. -/
theorem fitMultinomial_cprob (lnf : ℚ → ℚ) (x : JsMatrix ℚ) (y : List β) (alpha : ℚ)
    (i j : ℕ) (hi : i < (uniqueFirst y).length) (hj : j < x.ncol) :
    (fitMultinomial lnf x y alpha).cprob j i
      = cprobWritten lnf x y alpha (uniqueFirst y) i j :=
  fitFold_cprob lnf x y alpha (uniqueFirst y) (List.range (uniqueFirst y).length)
    (List.nodup_range _) _ i (List.mem_range.mpr hi) j hj

/-- The prior entry fitMultinomial produces, for every observed class. -/
theorem fitMultinomial_prior (lnf : ℚ → ℚ) (x : JsMatrix ℚ) (y : List β) (alpha : ℚ)
    (c : β) (hc : c ∈ uniqueFirst y) :
    (fitMultinomial lnf x y alpha).prior c
      = lnf (((classIds y x.nrow c).length : ℚ) / (x.nrow : ℚ)) := by
  obtain ⟨i, hi, hci⟩ := List.mem_iff_getElem.mp hc
  have hgd : (uniqueFirst y).getD i default = c := by
    rw [getD_eq_getElem _ default i hi, hci]
  have h := fitFold_prior lnf x y alpha (uniqueFirst y) (uniqueFirst_nodup y)
    (List.range (uniqueFirst y).length) (List.nodup_range _)
    (fun i2 hi2 => List.mem_range.mp hi2) (fun _ => 0, fun _ _ => 0) i (List.mem_range.mpr hi)
  rw [hgd] at h
  exact h

end FitLemmas

/-- Claim C4 (amended): after fitting on (x, y, alpha), prior[c] = ln(nc/n)
for every observed class c, and -- provided every per-class per-feature
count sum is a natural number below 2^31, so that the Int32Array store in
the implementation is lossless -- cprob[j][i] = ln(counts[j] + alpha) -
ln(totalCount + p * alpha) with counts and totalCount the specification
formulas; stated for every interpretation lnf of the logarithm. -/
theorem claim_C4_amended {β : Type} [DecidableEq β] [Inhabited β]
    (lnf : ℚ → ℚ) (x : JsMatrix ℚ) (y : List β) (alpha : ℚ)
    (hcnt : ∀ c ∈ uniqueFirst y, ∀ j, j < x.ncol →
      ∃ k : ℕ, colSum x y c j = (k : ℚ) ∧ (k : ℚ) < 2147483648) :
    (∀ c ∈ (fitMultinomial lnf x y alpha).classes,
      (fitMultinomial lnf x y alpha).prior c
        = lnf (((classIds y x.nrow c).length : ℚ) / (x.nrow : ℚ)))
    ∧ (∀ i, i < (fitMultinomial lnf x y alpha).nclass →
       ∀ j, j < (fitMultinomial lnf x y alpha).p →
       (fitMultinomial lnf x y alpha).cprob j i
         = lnf (colSum x y ((fitMultinomial lnf x y alpha).classes.getD i default) j + alpha)
           - lnf (totalSum x y ((fitMultinomial lnf x y alpha).classes.getD i default)
               + (x.ncol : ℚ) * alpha)) := by
  constructor
  · intro c hc
    exact fitMultinomial_prior lnf x y alpha c hc
  · intro i hi j hj
    rw [show (fitMultinomial lnf x y alpha).classes = uniqueFirst y from rfl]
    have hi2 : i < (uniqueFirst y).length := hi
    have hj2 : j < x.ncol := hj
    have hcmem : (uniqueFirst y).getD i default ∈ uniqueFirst y := by
      rw [getD_eq_getElem _ default i hi2]
      exact List.getElem_mem _
    have hfix : ∀ j2, j2 < x.ncol →
        ((toInt32 (colSum x y ((uniqueFirst y).getD i default) j2) : ℤ) : ℚ)
          = colSum x y ((uniqueFirst y).getD i default) j2 := by
      intro j2 hj2b
      obtain ⟨k, hk, hklt⟩ := hcnt _ hcmem j2 hj2b
      rw [hk, toInt32_natCast k hklt]
      push_cast
      rfl
    have hcw : (fitMultinomial lnf x y alpha).cprob j i
        = cprobWritten lnf x y alpha (uniqueFirst y) i j :=
      fitMultinomial_cprob lnf x y alpha i j hi2 hj2
    rw [hcw]
    unfold cprobWritten
    have htot : ((List.range x.ncol).map
        (fun j2 => ((toInt32 (colSum x y ((uniqueFirst y).getD i default) j2) : ℤ) : ℚ))).sum
        = totalSum x y ((uniqueFirst y).getD i default) := by
      unfold totalSum
      congr 1
      refine List.map_congr_left (fun j2 hj2b => ?_)
      exact hfix j2 (List.mem_range.mp hj2b)
    rw [htot, hfix j hj2]

/-- Witness for claim C4 (amended) on the specification example
x = [[2,0],[0,2]], y = [0,1], alpha = 1, with sqr interpreting the
logarithm. -/
theorem claim_C4_witness :
    (fitMultinomial sqr xm0 [(0 : ℚ), 1] 1).cprob 0 0
      = sqr (colSum xm0 [(0 : ℚ), 1]
            ((fitMultinomial sqr xm0 [(0 : ℚ), 1] 1).classes.getD 0 default) 0 + 1)
        - sqr (totalSum xm0 [(0 : ℚ), 1]
            ((fitMultinomial sqr xm0 [(0 : ℚ), 1] 1).classes.getD 0 default)
          + (xm0.ncol : ℚ) * 1) := by
  have hu : uniqueFirst [(0 : ℚ), 1] = [0, 1] := by
    norm_num [uniqueFirst]
  have hcnt : ∀ c ∈ uniqueFirst [(0 : ℚ), 1], ∀ j, j < xm0.ncol →
      ∃ k : ℕ, colSum xm0 [(0 : ℚ), 1] c j = (k : ℚ) ∧ (k : ℚ) < 2147483648 := by
    rw [hu]
    intro c hc j hj
    have hj2 : j < 2 := hj
    rcases List.mem_cons.mp hc with rfl | hc2
    · interval_cases j
      · exact ⟨2, by norm_num [colSum, classIds, xm0, toMatrix, List.range_succ], by norm_num⟩
      · exact ⟨0, by norm_num [colSum, classIds, xm0, toMatrix, List.range_succ], by norm_num⟩
    · rcases List.mem_cons.mp hc2 with rfl | hc3
      · interval_cases j
        · exact ⟨0, by norm_num [colSum, classIds, xm0, toMatrix, List.range_succ], by norm_num⟩
        · exact ⟨2, by norm_num [colSum, classIds, xm0, toMatrix, List.range_succ], by norm_num⟩
      · cases hc3
  exact (claim_C4_amended sqr xm0 [(0 : ℚ), 1] 1 hcnt).2 0
    (by simp [fitMultinomial, hu]) 0 (by norm_num [fitMultinomial, xm0, toMatrix])

/-- Claim C4 (counterexample): on the one-row matrix [[2^31, 0]] with
y = [0] and alpha = 1 -- non-negative integer count entries -- the fitted
cprob[0][0] differs from the specification formula
ln(counts[0] + alpha) - ln(totalCount + p * alpha): the code's Int32Array
slot wraps the column sum 2^31 to -2^31 before the logarithms are taken
(with sqr interpreting the logarithm, the two sides are 4294967293 and
-4294967299). -/
theorem claim_C4_counterexample :
    (∃ k : ℕ, xBig.get 0 0 = (k : ℚ))
    ∧ (fitMultinomial sqr xBig [(0 : ℚ)] 1).cprob 0 0
        ≠ sqr (colSum xBig [(0 : ℚ)] 0 0 + 1)
          - sqr (totalSum xBig [(0 : ℚ)] 0 + (xBig.ncol : ℚ) * 1) := by
  constructor
  · exact ⟨2147483648, by norm_num [xBig, toMatrix]⟩
  · have hu : uniqueFirst [(0 : ℚ)] = [0] := by
      norm_num [uniqueFirst]
    have hcol0 : colSum xBig [(0 : ℚ)] 0 0 = 2147483648 := by
      norm_num [colSum, classIds, xBig, toMatrix, List.range_succ]
    have hcol1 : colSum xBig [(0 : ℚ)] 0 1 = 0 := by
      norm_num [colSum, classIds, xBig, toMatrix, List.range_succ]
    have hncol : xBig.ncol = 2 := rfl
    have h1 : (fitMultinomial sqr xBig [(0 : ℚ)] 1).cprob 0 0
        = cprobWritten sqr xBig [(0 : ℚ)] 1 (uniqueFirst [(0 : ℚ)]) 0 0 :=
      fitMultinomial_cprob sqr xBig [(0 : ℚ)] 1 0 0 (by rw [hu]; norm_num)
        (by rw [hncol]; norm_num)
    have hgd : (uniqueFirst [(0 : ℚ)]).getD 0 default = 0 := by
      rw [hu]
      rfl
    have ht32 : toInt32 (2147483648 : ℚ) = -2147483648 := by
      have htr : jsTrunc (2147483648 : ℚ) = 2147483648 := by
        unfold jsTrunc
        rw [if_pos (by norm_num)]
        rw [show (2147483648 : ℚ) = ((2147483648 : ℤ) : ℚ) by norm_num]
        exact Int.floor_intCast _
      unfold toInt32
      rw [htr]
      decide
    have ht0 : toInt32 (0 : ℚ) = 0 := by
      have htr : jsTrunc (0 : ℚ) = 0 := by
        unfold jsTrunc
        rw [if_pos le_rfl]
        rw [show (0 : ℚ) = ((0 : ℤ) : ℚ) by norm_num]
        exact Int.floor_intCast _
      unfold toInt32
      rw [htr]
      decide
    rw [h1]
    unfold cprobWritten
    rw [hgd, hncol]
    rw [show List.range 2 = [0, 1] by rfl]
    simp only [List.map_cons, List.map_nil, List.sum_cons, List.sum_nil]
    rw [hcol0, hcol1, ht32, ht0]
    unfold totalSum
    rw [hncol, show List.range 2 = [0, 1] by rfl]
    simp only [List.map_cons, List.map_nil, List.sum_cons, List.sum_nil]
    rw [hcol0, hcol1]
    norm_num [sqr]

end NaiveBayes
